import Mathlib

/-!
Shallow embedding of `snakemq/queues.py` (queues with persistent sqlite
storage; TTL is decreased only by the disconnected time).

Modelling conventions:
* Wall-clock instants and TTLs (Python floats) are rationals `ℚ`; the clock
  (`time.time()`) is passed explicitly as a `now : ℚ` argument.
* The sqlite table `items` is a list of rows in insertion (rowid) order;
  `SELECT ... WHERE queue_name = ?` returns rows in that stored order.
* Python is dynamically typed: `SqliteQueuesStorage.delete_items` dereferences
  `.uuid` on each element of its argument, which raises `AttributeError` when
  the element is a string instead of an `Item`.  We model the values that flow
  into it with `PyObj` and raised exceptions with `PyError`.
* `QueuesManager.close` sets `storage = None`; the manager's storage handle is
  therefore an `Option`.  A subsequent attribute access on `None` raises
  `AttributeError`.
-/

/-- `FLAG_PERSISTENT = 1` (queues.py line 14). -/
def FLAG_PERSISTENT : Nat := 1

/-- `Item(uuid, data, ttl, flags)` (queues.py lines 19-24). -/
structure Item where
  uuid : String
  data : String
  ttl : ℚ
  flags : Nat
deriving DecidableEq, Repr

/-- Truthiness of `item.flags & FLAG_PERSISTENT` (used at queues.py
lines 52, 55, 67, 89). -/
def Item.isPersistent (i : Item) : Bool :=
  i.flags &&& FLAG_PERSISTENT != 0

/-- One row of the sqlite table
`items (queue_name TEXT, uuid TEXT, data TEXT, ttl REAL, flags INTEGER)`
(queues.py lines 162-164).  No UNIQUE constraint is declared on any column. -/
structure Row where
  queue_name : String
  uuid : String
  data : String
  ttl : ℚ
  flags : Nat
deriving DecidableEq, Repr

/-- The durable state behind a `SqliteQueuesStorage`: the rows of the `items`
table in insertion (rowid) order. -/
structure SqliteQueuesStorage where
  rows : List Row
deriving DecidableEq, Repr

/-- A Python value reaching `delete_items`: either an `Item` object or a
plain string (pop passes `[item.uuid]`, connect passes `Item`s). -/
inductive PyObj where
  | item : Item → PyObj
  | str : String → PyObj
deriving DecidableEq, Repr

/-- Python exceptions relevant to this module.  The code itself defines no
error classes; `managerClosedError` exists only to state the spec's claim
that such an error kind is raised (the code never produces it). -/
inductive PyError where
  | attributeError : String → PyError
  | storageError : PyError
  | managerClosedError : PyError
deriving DecidableEq, Repr

/-- Evaluation of the attribute access `obj.uuid` in `delete_items`
(queues.py line 203): on a string it raises `AttributeError`. -/
def PyObj.uuidAttr : PyObj → Except PyError String
  | .item i => .ok i.uuid
  | .str _ => .error (.attributeError "str object has no attribute uuid")

/-- `DELETE FROM items WHERE uuid = ?` (queues.py line 202): removes every
row carrying the given uuid. -/
def SqliteQueuesStorage.deleteUuid (s : SqliteQueuesStorage) (u : String) :
    SqliteQueuesStorage :=
  ⟨s.rows.filter (fun r => r.uuid ≠ u)⟩

/-- `SqliteQueuesStorage.delete_items(items)` (queues.py lines 199-204):
iterates the argument, dereferencing `.uuid` on each element and deleting by
uuid; the first non-`Item` element raises before any commit. -/
def SqliteQueuesStorage.delete_items (s : SqliteQueuesStorage) :
    List PyObj → Except PyError SqliteQueuesStorage
  | [] => .ok s
  | obj :: rest =>
    match obj.uuidAttr with
    | .ok u => (s.deleteUuid u).delete_items rest
    | .error e => .error e

/-- `UPDATE items SET ttl = ? WHERE uuid = ?` applied for each item
(`SqliteQueuesStorage.update_items_ttl`, queues.py lines 206-210). -/
def SqliteQueuesStorage.update_items_ttl (s : SqliteQueuesStorage)
    (items : List Item) : SqliteQueuesStorage :=
  items.foldl
    (fun acc i =>
      ⟨acc.rows.map (fun r => if r.uuid = i.uuid then { r with ttl := i.ttl } else r)⟩)
    s

/-- `SqliteQueuesStorage.push(queue_name, item)` (queues.py lines 192-197):
an unconditional INSERT, appending one row. -/
def SqliteQueuesStorage.push (s : SqliteQueuesStorage) (queue_name : String)
    (item : Item) : SqliteQueuesStorage :=
  ⟨s.rows ++ [⟨queue_name, item.uuid, item.data, item.ttl, item.flags⟩]⟩

/-- `SELECT uuid, data, ttl, flags FROM items WHERE queue_name = ?`
(`SqliteQueuesStorage.get_items`, queues.py lines 180-190). -/
def SqliteQueuesStorage.get_items (s : SqliteQueuesStorage)
    (queue_name : String) : List Item :=
  (s.rows.filter (fun r => r.queue_name = queue_name)).map
    (fun r => ⟨r.uuid, r.data, r.ttl, r.flags⟩)

/-- `SELECT queue_name FROM items GROUP BY queue_name`
(`SqliteQueuesStorage.get_queues`, queues.py lines 173-178): the distinct
queue names present in the table. -/
def SqliteQueuesStorage.get_queues (s : SqliteQueuesStorage) : List String :=
  s.rows.foldl
    (fun acc r => if r.queue_name ∈ acc then acc else acc ++ [r.queue_name])
    []

/-- The mutable state of a `Queue` object (queues.py lines 29-37): its name,
the in-memory item list `self.queue`, and `self.last_disconnect_absolute`. -/
structure QueueState where
  name : String
  queue : List Item
  last_disconnect_absolute : ℚ
deriving DecidableEq, Repr

/-- `Queue.__init__` (queues.py lines 30-37): `load_persistent_data()` fills
`self.queue` from `storage.get_items(name)`, then `disconnect()` records the
construction instant as `last_disconnect_absolute`. -/
def QueueState.init (now : ℚ) (name : String) (st : SqliteQueuesStorage) :
    QueueState :=
  ⟨name, st.get_items name, now⟩

/-- `Queue.disconnect` (queues.py lines 62-63). -/
def QueueState.disconnect (now : ℚ) (q : QueueState) : QueueState :=
  { q with last_disconnect_absolute := now }

/-- The loop body of `Queue.connect` (queues.py lines 48-56): every item's
ttl is decremented by `diff`; items with new ttl ≥ 0 go to `fresh_queue`
(persistent ones also to `storage_update_ttls`), the rest (if persistent) to
`storage_to_delete`.  Returns `(fresh_queue, storage_update_ttls,
storage_to_delete)`. -/
def connectLoop (diff : ℚ) : List Item → List Item × List Item × List Item
  | [] => ([], [], [])
  | item :: rest =>
    let item' : Item := { item with ttl := item.ttl - diff }
    let r := connectLoop diff rest
    if 0 ≤ item'.ttl then
      (item' :: r.1, (if item'.isPersistent then item' :: r.2.1 else r.2.1), r.2.2)
    else
      (r.1, r.2.1, (if item'.isPersistent then item' :: r.2.2 else r.2.2))

/-- `Queue.connect` (queues.py lines 42-60) with storage-fault injection:
`failUpdate` (resp. `failDelete`) makes the batched `update_items_ttl`
(resp. `delete_items`) call raise a storage error.  The loop has already
mutated every `Item` of `self.queue` in place (`item.ttl -= diff`, line 49)
before either storage call runs, and `self.queue[:] = fresh_queue` (line 60)
executes only after both calls return.  Result: `(raised exception if any,
storage state, queue state)`. -/
def QueueState.connectF (failUpdate failDelete : Bool) (now : ℚ)
    (st : SqliteQueuesStorage) (q : QueueState) :
    Option PyError × SqliteQueuesStorage × QueueState :=
  let diff := now - q.last_disconnect_absolute
  let r := connectLoop diff q.queue
  let mutated := q.queue.map (fun i => { i with ttl := i.ttl - diff })
  if failUpdate then
    (some .storageError, st, { q with queue := mutated })
  else
    let st1 := st.update_items_ttl r.2.1
    if failDelete then
      (some .storageError, st1, { q with queue := mutated })
    else
      match st1.delete_items (r.2.2.map PyObj.item) with
      | .ok st2 => (none, st2, { q with queue := r.1 })
      | .error e => (some e, st1, { q with queue := mutated })

/-- `Queue.connect` on a healthy storage (no faults; the `delete_items` call
receives only `Item`s, so it cannot raise). -/
def QueueState.connect (now : ℚ) (st : SqliteQueuesStorage) (q : QueueState) :
    SqliteQueuesStorage × QueueState :=
  (q.connectF false false now st).2

/-- `Queue.push` (queues.py lines 65-68): append to the in-memory list; if
the item is persistent, insert it into storage. -/
def QueueState.push (st : SqliteQueuesStorage) (q : QueueState) (item : Item) :
    SqliteQueuesStorage × QueueState :=
  let q' := { q with queue := q.queue ++ [item] }
  if item.isPersistent then (st.push q.name item, q') else (st, q')

/-- `Queue.get` (queues.py lines 70-79): first item or `None`; no TTL test. -/
def QueueState.get (q : QueueState) : Option Item :=
  q.queue.head?

/-- `Queue.pop` (queues.py lines 81-90): no-op when empty; otherwise the front
item is removed from memory first, then for a persistent item the code calls
`delete_items([item.uuid])` — a list holding a *string*.  Result: `(raised
exception if any, storage state, queue state)`. -/
def QueueState.pop (st : SqliteQueuesStorage) (q : QueueState) :
    Option PyError × SqliteQueuesStorage × QueueState :=
  match q.queue with
  | [] => (none, st, q)
  | item :: rest =>
    let q' := { q with queue := rest }
    if item.isPersistent then
      match st.delete_items [PyObj.str item.uuid] with
      | .ok st' => (none, st', q')
      | .error e => (some e, st, q')
    else
      (none, st, q')

/-- `Queue.__len__` (queues.py lines 92-93). -/
def QueueState.length (q : QueueState) : Nat :=
  q.queue.length

/-- The state of a `QueuesManager` (queues.py lines 98-105): the storage
handle (`None` after `close()`) and the `name → Queue` dict, modelled as an
association list in insertion order with unique keys. -/
structure QueuesManager where
  storage : Option SqliteQueuesStorage
  queues : List (String × QueueState)
deriving DecidableEq, Repr

/-- `QueuesManager.get_queue` (queues.py lines 111-120): return the cached
queue, or construct one (which reads `manager.storage.get_items`; on a closed
manager `storage` is `None` and the attribute access raises) and register it. -/
def QueuesManager.get_queue (now : ℚ) (m : QueuesManager) (queue_name : String) :
    Except PyError (QueuesManager × QueueState) :=
  match m.queues.lookup queue_name with
  | some q => .ok (m, q)
  | none =>
    match m.storage with
    | none => .error (.attributeError "NoneType object has no attribute get_items")
    | some st =>
      let q := QueueState.init now queue_name st
      .ok ({ m with queues := m.queues ++ [(queue_name, q)] }, q)

/-- `QueuesManager.load_from_storage` (queues.py lines 107-109): call
`get_queue` for every queue name found in storage.  During construction the
storage handle is present, so `get_queue` cannot raise; the error branch
below is unreachable and keeps the fold total. -/
def QueuesManager.load_from_storage (now : ℚ) (m : QueuesManager) :
    QueuesManager :=
  (match m.storage with
   | none => []
   | some st => st.get_queues).foldl
    (fun acc name =>
      match acc.get_queue now name with
      | .ok p => p.1
      | .error _ => acc)
    m

/-- `QueuesManager.__init__` (queues.py lines 99-105): record the storage
handle, start with an empty dict, then `load_from_storage`. -/
def QueuesManager.init (now : ℚ) (st : SqliteQueuesStorage) : QueuesManager :=
  QueuesManager.load_from_storage now ⟨some st, []⟩

/-- `QueuesManager.cleanup` (queues.py lines 122-128): iterate over the
(dict.items snapshot of the) held queues and delete every falsy (empty) one
from the dict. -/
def QueuesManager.cleanup (m : QueuesManager) : QueuesManager :=
  m.queues.foldl
    (fun acc p =>
      if p.2.length = 0 then
        { acc with queues := acc.queues.filter (fun p2 => p2.1 ≠ p.1) }
      else acc)
    m

/-- `QueuesManager.close` (queues.py lines 130-136): clear the dict, close
the storage, set `self.storage = None`. -/
def QueuesManager.close (_m : QueuesManager) : QueuesManager :=
  ⟨none, []⟩

/-- Uuid uniqueness across the whole store, as asserted by the spec's data
model (`uuid: string (unique)`). -/
def SqliteQueuesStorage.uuidsUnique (s : SqliteQueuesStorage) : Prop :=
  (s.rows.map Row.uuid).Nodup

instance (s : SqliteQueuesStorage) : Decidable s.uuidsUnique := by
  unfold SqliteQueuesStorage.uuidsUnique
  infer_instance

/-! ### Helper lemmas -/

/-- The single pass of `connect` computes: the decremented items with new
ttl ≥ 0 (in order), the persistent ones among those, and the persistent ones
among the decremented items with new ttl < 0. -/
lemma connectLoop_eq (diff : ℚ) (l : List Item) :
    connectLoop diff l =
      (((l.map (fun i => { i with ttl := i.ttl - diff })).filter
          (fun i => 0 ≤ i.ttl)),
       ((l.map (fun i => { i with ttl := i.ttl - diff })).filter
          (fun i => 0 ≤ i.ttl)).filter Item.isPersistent,
       ((l.map (fun i => { i with ttl := i.ttl - diff })).filter
          (fun i => i.ttl < 0)).filter Item.isPersistent) := by
  induction l with
  | nil => simp [connectLoop]
  | cons a l ih =>
    simp only [connectLoop, ih, List.map_cons, List.filter_cons]
    by_cases h : 0 ≤ a.ttl - diff
    · have h2 : ¬ (a.ttl - diff < 0) := not_lt.mpr h
      by_cases hp : Item.isPersistent { a with ttl := a.ttl - diff }
      · simp [h, h2, hp]
      · simp [h, h2, hp]
    · have h2 : a.ttl - diff < 0 := not_le.mp h
      by_cases hp : Item.isPersistent { a with ttl := a.ttl - diff }
      · simp [h, h2, hp]
      · simp [h, h2, hp]

/-- `delete_items` never raises when every argument is an `Item`; it folds
the per-uuid DELETE over the list. -/
lemma delete_items_map_item (s : SqliteQueuesStorage) (l : List Item) :
    s.delete_items (l.map PyObj.item) =
      .ok (l.foldl (fun acc i => acc.deleteUuid i.uuid) s) := by
  induction l generalizing s with
  | nil => rfl
  | cons a l ih =>
    simp [SqliteQueuesStorage.delete_items, PyObj.uuidAttr, ih]

/-- Full characterization of a fault-free `connect()`: the in-memory sequence
becomes the decremented items with ttl ≥ 0 in order; storage receives the
batched TTL updates for surviving persistent items and then the batched
deletes for evicted persistent items. -/
lemma connect_eq (now : ℚ) (st : SqliteQueuesStorage) (q : QueueState) :
    QueueState.connect now st q =
      ((((q.queue.map (fun i =>
              { i with ttl := i.ttl - (now - q.last_disconnect_absolute) })).filter
            (fun i => i.ttl < 0)).filter Item.isPersistent).foldl
        (fun acc i => acc.deleteUuid i.uuid)
        (st.update_items_ttl
          (((q.queue.map (fun i =>
              { i with ttl := i.ttl - (now - q.last_disconnect_absolute) })).filter
              (fun i => 0 ≤ i.ttl)).filter Item.isPersistent)),
       { q with
          queue := (q.queue.map (fun i =>
              { i with ttl := i.ttl - (now - q.last_disconnect_absolute) })).filter
            (fun i => 0 ≤ i.ttl) }) := by
  unfold QueueState.connect QueueState.connectF
  simp only [connectLoop_eq, delete_items_map_item, Bool.false_eq_true,
    if_false, Bool.if_false_left, Bool.and_true]

/-! ### Claims -/

/-- **C1.** For every queue (with recorded disconnect time
`last_disconnect_absolute`), `connect()` at time `now` decrements every
in-memory item's ttl by exactly `diff = now - last_disconnect_absolute`,
keeps in memory, in order, exactly the items whose new ttl is ≥ 0 (ttl = 0
survives, ttl < 0 is evicted), batch-updates the TTL in storage for the
surviving persistent items, and batch-deletes from storage the evicted
persistent items. -/
theorem connect_decrements_filters_and_batches (now : ℚ)
    (st : SqliteQueuesStorage) (q : QueueState) :
    QueueState.connect now st q =
      ((((q.queue.map (fun i =>
              { i with ttl := i.ttl - (now - q.last_disconnect_absolute) })).filter
            (fun i => i.ttl < 0)).filter Item.isPersistent).foldl
        (fun acc i => acc.deleteUuid i.uuid)
        (st.update_items_ttl
          (((q.queue.map (fun i =>
              { i with ttl := i.ttl - (now - q.last_disconnect_absolute) })).filter
              (fun i => 0 ≤ i.ttl)).filter Item.isPersistent)),
       { q with
          queue := (q.queue.map (fun i =>
              { i with ttl := i.ttl - (now - q.last_disconnect_absolute) })).filter
            (fun i => 0 ≤ i.ttl) }) :=
  connect_eq now st q

/-- **C2 (code bug).** `pop()` on queue `jobs` holding the single persistent
item (uuid `a`, data `x`, ttl 5) raises `AttributeError` and leaves the
storage row in place: `pop` passes `[item.uuid]` — a list of strings — to
`delete_items`, which dereferences `.uuid` on each element (connect, by
contrast, passes `Item` objects).  The front item is nevertheless already
removed from memory when the exception is raised. -/
theorem pop_persistent_raises_and_row_survives :
    QueueState.pop ⟨[⟨"jobs", "a", "x", 5, 1⟩]⟩ ⟨"jobs", [⟨"a", "x", 5, 1⟩], 0⟩ =
      (some (.attributeError "str object has no attribute uuid"),
       ⟨[⟨"jobs", "a", "x", 5, 1⟩]⟩,
       ⟨"jobs", [], 0⟩) := by
  rfl

/-- **C3 (counterexample).** Queue `q` holds one item with ttl 10 and
`last_disconnect_absolute = 0`; `connect()` at time 3 with the batched TTL
update failing leaves the in-memory sequence unreplaced, but the item's
observable ttl is 7, not the pre-connect 10: the loop mutated it in place
before the storage call. -/
theorem connect_fault_ttl_not_restored :
    (QueueState.connectF true false 3 ⟨[]⟩ ⟨"q", [⟨"a", "x", 10, 0⟩], 0⟩).2.2.queue =
      [⟨"a", "x", 7, 0⟩] ∧
    ([⟨"a", "x", 7, 0⟩] : List Item) ≠ [⟨"a", "x", 10, 0⟩] := by
  constructor
  · unfold QueueState.connectF
    norm_num
  · intro hc
    have : (7 : ℚ) = 10 := congrArg Item.ttl (List.head_eq_of_cons_eq hc)
    norm_num at this

/-- **C3 (amended).** If either batched storage call of `connect()` fails,
the in-memory sequence is not replaced by the filtered sequence — no item is
evicted, the order and the disconnect timestamp are preserved — but every
item's ttl has already been decremented in place by
`diff = now - last_disconnect_absolute`, and the storage error propagates. -/
theorem connect_fault_keeps_sequence_but_ttls_mutated (fu fd : Bool) (now : ℚ)
    (st : SqliteQueuesStorage) (q : QueueState) (h : fu = true ∨ fd = true) :
    (q.connectF fu fd now st).1 = some PyError.storageError ∧
    (q.connectF fu fd now st).2.2.queue =
      q.queue.map (fun i =>
        { i with ttl := i.ttl - (now - q.last_disconnect_absolute) }) ∧
    (q.connectF fu fd now st).2.2.last_disconnect_absolute =
      q.last_disconnect_absolute := by
  unfold QueueState.connectF
  rcases h with h | h
  · subst h
    simp
  · subst h
    cases fu
    · simp
    · simp

/-- Witness for the amended C3 theorem at a concrete input. -/
theorem connect_fault_keeps_sequence_but_ttls_mutated_witness :
    (QueueState.connectF true false 3 ⟨[]⟩ ⟨"w", [⟨"b", "y", 10, 0⟩], 0⟩).1 =
      some PyError.storageError :=
  (connect_fault_keeps_sequence_but_ttls_mutated true false 3 ⟨[]⟩
    ⟨"w", [⟨"b", "y", 10, 0⟩], 0⟩ (Or.inl rfl)).1

/-- Pushing a list of items one by one (`Queue.push` folded). -/
def pushAll (p : SqliteQueuesStorage × QueueState) (items : List Item) :
    SqliteQueuesStorage × QueueState :=
  items.foldl (fun acc i => QueueState.push acc.1 acc.2 i) p

/-- Observe the queue through its reader interface: repeatedly `get` (peek
the front) then `pop`, recording each observed item. -/
def observeDrain : Nat → SqliteQueuesStorage × QueueState → List Item
  | 0, _ => []
  | n + 1, p =>
    match p.2.get with
    | none => []
    | some i => i :: observeDrain n (QueueState.pop p.1 p.2).2

/-- `push` appends to the end of the in-memory sequence, whatever the
persistence flag. -/
lemma push_queue_eq (st : SqliteQueuesStorage) (q : QueueState) (i : Item) :
    (QueueState.push st q i).2.queue = q.queue ++ [i] := by
  unfold QueueState.push
  by_cases h : i.isPersistent <;> simp [h]

/-- `pop` removes exactly the front of the in-memory sequence (also when the
buggy storage delete raises on a persistent item). -/
lemma pop_queue_eq (st : SqliteQueuesStorage) (q : QueueState) :
    (QueueState.pop st q).2.2.queue = q.queue.tail := by
  unfold QueueState.pop
  match h : q.queue with
  | [] => simp [h]
  | item :: rest =>
    by_cases hp : item.isPersistent
    · simp only [hp, if_true]
      cases st.delete_items [PyObj.str item.uuid] <;> simp
    · simp [hp]

/-- `pushAll` appends the pushed items, in order, to the in-memory sequence. -/
lemma pushAll_queue_eq (items : List Item) (p : SqliteQueuesStorage × QueueState) :
    (pushAll p items).2.queue = p.2.queue ++ items := by
  induction items generalizing p with
  | nil => simp [pushAll]
  | cons a l ih =>
    show (pushAll (QueueState.push p.1 p.2 a) l).2.queue = _
    rw [ih, push_queue_eq]
    simp

/-- Draining a queue whose in-memory sequence is `l` observes exactly `l`. -/
lemma observeDrain_eq (l : List Item) (p : SqliteQueuesStorage × QueueState)
    (h : p.2.queue = l) : observeDrain l.length p = l := by
  induction l generalizing p with
  | nil => simp [observeDrain]
  | cons a rest ih =>
    have hget : p.2.get = some a := by
      unfold QueueState.get
      rw [h]
      rfl
    have hpop : (QueueState.pop p.1 p.2).2.2.queue = rest := by
      rw [pop_queue_eq, h]
      rfl
    simp only [List.length_cons, observeDrain, hget]
    rw [ih _ hpop]

/-- **C4.** FIFO order: pushing `P1..Pn` onto an (initially empty) queue and
then observing the front `n` times through `get`/`pop` yields exactly
`P1..Pn` in push order; `push` appends at the end of the in-memory sequence
and `get`/`pop` operate strictly on the front. -/
theorem push_pop_fifo (st : SqliteQueuesStorage) (q : QueueState)
    (items : List Item) (h : q.queue = []) :
    observeDrain items.length (pushAll (st, q) items) = items ∧
    (∀ (st2 : SqliteQueuesStorage) (q2 : QueueState) (i : Item),
      (QueueState.push st2 q2 i).2.queue = q2.queue ++ [i]) ∧
    (∀ q2 : QueueState, q2.get = q2.queue.head?) ∧
    (∀ (st2 : SqliteQueuesStorage) (q2 : QueueState),
      (QueueState.pop st2 q2).2.2.queue = q2.queue.tail) := by
  refine ⟨?_, push_queue_eq, fun _ => rfl, pop_queue_eq⟩
  apply observeDrain_eq
  have h2 : (st, q).2.queue = ([] : List Item) := h
  rw [pushAll_queue_eq, h2, List.nil_append]

/-- Witness for C4: pushing two concrete items onto an empty queue and
draining observes them in push order. -/
theorem push_pop_fifo_witness :
    observeDrain 2 (pushAll (⟨[]⟩, ⟨"jobs", [], 0⟩)
      [⟨"a", "x", 5, 1⟩, ⟨"b", "y", 6, 0⟩]) =
      [⟨"a", "x", 5, 1⟩, ⟨"b", "y", 6, 0⟩] :=
  (push_pop_fifo ⟨[]⟩ ⟨"jobs", [], 0⟩
    [⟨"a", "x", 5, 1⟩, ⟨"b", "y", 6, 0⟩] rfl).1

/-- **C7 (counterexample).** On a freshly opened empty storage, after
`close()` the next `get_queue` raises `AttributeError` (the cleared storage
handle is `None`), which is not a dedicated `ManagerClosedError`. -/
theorem close_then_get_queue_attribute_error :
    (QueuesManager.close (QueuesManager.init 0 ⟨[]⟩)).get_queue 1 "jobs" =
      .error (.attributeError "NoneType object has no attribute get_items") ∧
    (Except.error (PyError.attributeError
        "NoneType object has no attribute get_items") :
      Except PyError (QueuesManager × QueueState)) ≠
      .error .managerClosedError := by
  constructor
  · rfl
  · simp

/-- **C7 (amended).** After `close()` every subsequent `get_queue` call on
that manager fails — but with an `AttributeError` from dereferencing the
cleared (`None`) storage handle while constructing the queue, since the code
defines no `ManagerClosedError`. -/
theorem close_then_get_queue_fails (m : QueuesManager) (now : ℚ)
    (name : String) :
    (m.close).get_queue now name =
      .error (.attributeError "NoneType object has no attribute get_items") :=
  rfl

/-- **C8 (counterexample).** `Storage.push` is an unconditional INSERT into a
table with no UNIQUE constraint: pushing two records with uuid `u` yields a
store in which the uuid is not unique. -/
theorem push_allows_duplicate_uuid :
    ¬ (((SqliteQueuesStorage.push ⟨[]⟩ "q" ⟨"u", "x", 1, 1⟩).push "q"
        ⟨"u", "y", 2, 1⟩).uuidsUnique) := by
  decide

/-- **C8 (amended).** The store itself never enforces uuid uniqueness;
`push` preserves it exactly when the pushed uuid does not already occur in
the store (uniqueness is a caller obligation on supplied uuids). -/
theorem push_preserves_uuid_uniqueness (s : SqliteQueuesStorage)
    (name : String) (item : Item) (hu : s.uuidsUnique)
    (hfresh : ∀ r ∈ s.rows, r.uuid ≠ item.uuid) :
    (s.push name item).uuidsUnique := by
  unfold SqliteQueuesStorage.uuidsUnique SqliteQueuesStorage.push at *
  simp only [List.map_append, List.map_cons, List.map_nil]
  rw [List.nodup_append]
  refine ⟨hu, List.nodup_singleton _, ?_⟩
  intro u hu2 hv
  rcases List.mem_map.mp hu2 with ⟨r, hr, hru⟩
  simp only [List.mem_singleton] at hv
  exact hfresh r hr (hv ▸ hru)

/-- Witness for the amended C8 theorem at a concrete input. -/
theorem push_preserves_uuid_uniqueness_witness :
    (SqliteQueuesStorage.push ⟨[⟨"q", "v", "x", 1, 1⟩]⟩ "q"
      ⟨"u", "y", 2, 1⟩).uuidsUnique :=
  push_preserves_uuid_uniqueness ⟨[⟨"q", "v", "x", 1, 1⟩]⟩ "q"
    ⟨"u", "y", 2, 1⟩ (by decide) (by decide)

/-- The keys deleted by the `cleanup` scan: names of the empty queues in the
snapshot it iterates over. -/
def emptyKeys (s : List (String × QueueState)) : List String :=
  (s.filter (fun p => p.2.length = 0)).map Prod.fst

/-- Folding the per-entry deletions of `cleanup` over a snapshot `s` leaves
the storage untouched. -/
lemma cleanup_fold_storage (s : List (String × QueueState)) (m : QueuesManager) :
    (s.foldl (fun acc p =>
        if p.2.length = 0 then
          { acc with queues := acc.queues.filter (fun p2 => p2.1 ≠ p.1) }
        else acc) m).storage = m.storage := by
  induction s generalizing m with
  | nil => rfl
  | cons p rest ih =>
    by_cases hp : p.2.length = 0
    · simp only [List.foldl_cons, hp, if_true, ih]
    · simp only [List.foldl_cons, hp, if_false, ih]

/-- Folding the per-entry deletions of `cleanup` over a snapshot `s` removes
from the dict exactly the entries keyed by `emptyKeys s`. -/
lemma cleanup_fold_queues (s : List (String × QueueState)) (m : QueuesManager) :
    (s.foldl (fun acc p =>
        if p.2.length = 0 then
          { acc with queues := acc.queues.filter (fun p2 => p2.1 ≠ p.1) }
        else acc) m).queues =
      m.queues.filter (fun p2 => p2.1 ∉ emptyKeys s) := by
  induction s generalizing m with
  | nil => simp [emptyKeys]
  | cons p rest ih =>
    by_cases hp : p.2.length = 0
    · simp only [List.foldl_cons, hp, if_true, ih]
      rw [List.filter_filter]
      apply List.filter_congr
      intro a _
      by_cases h1 : a.1 = p.1
      · simp [emptyKeys, List.filter_cons, hp, h1]
      · simp [emptyKeys, List.filter_cons, hp, h1]
    · simp only [List.foldl_cons, hp, if_false, ih]
      apply List.filter_congr
      intro a _
      simp [emptyKeys, List.filter_cons, hp]

/-- With pairwise-distinct keys, two entries sharing a key are the same
entry. -/
lemma entry_eq_of_fst_eq {l : List (String × QueueState)}
    (h : (l.map Prod.fst).Nodup) {p p2 : String × QueueState}
    (hp : p ∈ l) (hp2 : p2 ∈ l) (he : p.1 = p2.1) : p = p2 :=
  List.inj_on_of_nodup_map h hp hp2 he

/-- **C6.** Provided the dict keys are distinct (a dict invariant),
`cleanup()` deregisters exactly the queues whose `length()` is 0, retains
every queue with `length() > 0` unchanged and in place, and does not touch
the storage. -/
theorem cleanup_drops_exactly_empty_queues (m : QueuesManager)
    (h : (m.queues.map Prod.fst).Nodup) :
    (m.cleanup).queues = m.queues.filter (fun p => p.2.length ≠ 0) ∧
    (m.cleanup).storage = m.storage := by
  constructor
  · unfold QueuesManager.cleanup
    rw [cleanup_fold_queues]
    apply List.filter_congr
    intro p hp
    by_cases hl : p.2.length = 0
    · have hm : p.1 ∈ emptyKeys m.queues :=
        List.mem_map.mpr ⟨p, List.mem_filter.mpr ⟨hp, by simpa using hl⟩, rfl⟩
      simp [hm, hl]
    · have hm : p.1 ∉ emptyKeys m.queues := by
        intro hmem
        rcases List.mem_map.mp hmem with ⟨p2, hp2f, hfst⟩
        rcases List.mem_filter.mp hp2f with ⟨hp2, hlen⟩
        rw [entry_eq_of_fst_eq h hp2 hp hfst] at hlen
        exact hl (by simpa using hlen)
      simp [hm, hl]
  · exact cleanup_fold_storage m.queues m

/-- Witness for C6: a manager holding empty queue `A` and 3-item queue `B`
retains `B` and drops `A`. -/
theorem cleanup_drops_exactly_empty_queues_witness :
    (QueuesManager.cleanup
      ⟨some ⟨[]⟩,
       [("A", ⟨"A", [], 0⟩),
        ("B", ⟨"B", [⟨"a", "x", 1, 0⟩, ⟨"b", "y", 2, 0⟩, ⟨"c", "z", 3, 0⟩], 0⟩)]⟩).queues =
      [("B", ⟨"B", [⟨"a", "x", 1, 0⟩, ⟨"b", "y", 2, 0⟩, ⟨"c", "z", 3, 0⟩], 0⟩)] := by
  rw [(cleanup_drops_exactly_empty_queues
    ⟨some ⟨[]⟩,
     [("A", ⟨"A", [], 0⟩),
      ("B", ⟨"B", [⟨"a", "x", 1, 0⟩, ⟨"b", "y", 2, 0⟩, ⟨"c", "z", 3, 0⟩], 0⟩)]⟩
    (by decide)).1]
  rfl

/-- A queue-level operation of the public interface, with the wall-clock
instant passed to the time-dependent transitions. -/
inductive QOp where
  | push : Item → QOp
  | pop : QOp
  | connect : ℚ → QOp
  | disconnect : ℚ → QOp
deriving DecidableEq, Repr

/-- One step of a queue trace: the operation applied to the joint
(storage, queue) state.  `pop` keeps the post-exception state (the front
item is removed even when the buggy persistent delete raises). -/
def runOp (p : SqliteQueuesStorage × QueueState) : QOp → SqliteQueuesStorage × QueueState
  | .push i => QueueState.push p.1 p.2 i
  | .pop => (QueueState.pop p.1 p.2).2
  | .connect t => QueueState.connect t p.1 p.2
  | .disconnect t => (p.1, QueueState.disconnect t p.2)

/-- Run a trace of queue operations. -/
def runOps (p : SqliteQueuesStorage × QueueState) (ops : List QOp) :
    SqliteQueuesStorage × QueueState :=
  ops.foldl runOp p

/-- A single operation preserves nonnegativity of all in-memory TTLs,
provided a pushed item has nonnegative ttl. -/
lemma runOp_ttl_nonneg (p : SqliteQueuesStorage × QueueState) (op : QOp)
    (hop : ∀ i : Item, op = QOp.push i → 0 ≤ i.ttl)
    (hinv : ∀ i ∈ p.2.queue, 0 ≤ i.ttl) :
    ∀ i ∈ (runOp p op).2.queue, 0 ≤ i.ttl := by
  cases op with
  | push j =>
    intro i hi
    have h2 : i ∈ p.2.queue ++ [j] := by
      rw [← push_queue_eq p.1 p.2 j]
      exact hi
    rcases List.mem_append.mp h2 with h | h
    · exact hinv i h
    · rw [List.mem_singleton.mp h]
      exact hop j rfl
  | pop =>
    intro i hi
    have h2 : i ∈ p.2.queue.tail := by
      rw [← pop_queue_eq p.1 p.2]
      exact hi
    exact hinv i (List.mem_of_mem_tail h2)
  | connect t =>
    intro i hi
    simp only [runOp] at hi
    rw [connect_eq] at hi
    exact of_decide_eq_true (List.mem_filter.mp hi).2
  | disconnect t =>
    intro i hi
    exact hinv i hi

/-- A whole trace preserves nonnegativity of all in-memory TTLs. -/
lemma runOps_ttl_nonneg (ops : List QOp) (p : SqliteQueuesStorage × QueueState)
    (hpush : ∀ op ∈ ops, ∀ i : Item, op = QOp.push i → 0 ≤ i.ttl)
    (hinv : ∀ i ∈ p.2.queue, 0 ≤ i.ttl) :
    ∀ i ∈ (runOps p ops).2.queue, 0 ≤ i.ttl := by
  induction ops generalizing p with
  | nil => exact hinv
  | cons op rest ih =>
    exact ih (runOp p op)
      (fun o ho => hpush o (List.mem_cons_of_mem op ho))
      (runOp_ttl_nonneg p op (hpush op (List.mem_cons_self op rest)) hinv)

/-- The rows surviving the folded per-uuid deletes are rows of the base
storage. -/
lemma foldDelete_rows_subset (l : List Item) (s : SqliteQueuesStorage) :
    (l.foldl (fun acc i => acc.deleteUuid i.uuid) s).rows ⊆ s.rows := by
  induction l generalizing s with
  | nil => exact fun r h => h
  | cons j t ih =>
    intro r hr
    exact List.mem_of_mem_filter (ih (s.deleteUuid j.uuid) hr)

/-- After folding the per-uuid deletes, no surviving row carries a deleted
uuid. -/
lemma foldDelete_kills (l : List Item) (s : SqliteQueuesStorage) (u : String)
    (hu : ∃ j ∈ l, j.uuid = u) :
    ∀ r ∈ (l.foldl (fun acc i => acc.deleteUuid i.uuid) s).rows, r.uuid ≠ u := by
  induction l generalizing s with
  | nil =>
    rcases hu with ⟨j, hj, _⟩
    exact absurd hj (List.not_mem_nil j)
  | cons j t ih =>
    rcases hu with ⟨j0, hj0, hju⟩
    rcases List.mem_cons.mp hj0 with h | h
    · intro r hr
      have hr2 : r ∈ (s.deleteUuid j.uuid).rows :=
        foldDelete_rows_subset t (s.deleteUuid j.uuid) hr
      have hne : r.uuid ≠ j.uuid :=
        of_decide_eq_true (List.mem_filter.mp hr2).2
      rw [← hju, h]
      exact hne
    · exact ih (s.deleteUuid j.uuid) ⟨j0, h, hju⟩

/-- **C9.** Readers never observe an item whose TTL has *dropped* below
zero: (a) along any trace whose pushes all carry nonnegative ttl (push
itself performs no TTL check, so a negative-ttl push is the claim's stated
exception), starting from a queue whose in-memory items all have ttl ≥ 0,
`get` only ever returns items with ttl ≥ 0; and (b) any item whose ttl drops
below zero at a `connect()` is evicted from the in-memory sequence and, if
persistent, from storage by that same `connect()`, before any read can
return it. -/
theorem reader_never_observes_dropped_ttl
    (p : SqliteQueuesStorage × QueueState) (ops : List QOp)
    (hpush : ∀ op ∈ ops, ∀ i : Item, op = QOp.push i → 0 ≤ i.ttl)
    (hinit : ∀ i ∈ p.2.queue, 0 ≤ i.ttl) :
    (∀ i : Item, (runOps p ops).2.get = some i → 0 ≤ i.ttl) ∧
    (∀ (now : ℚ) (st : SqliteQueuesStorage) (q : QueueState) (i : Item),
      i ∈ q.queue → i.ttl - (now - q.last_disconnect_absolute) < 0 →
      { i with ttl := i.ttl - (now - q.last_disconnect_absolute) } ∉
        (QueueState.connect now st q).2.queue ∧
      (i.isPersistent = true →
        ∀ r ∈ (QueueState.connect now st q).1.rows, r.uuid ≠ i.uuid)) := by
  constructor
  · intro i hget
    exact runOps_ttl_nonneg ops p hpush hinit i
      (List.mem_of_mem_head? hget)
  · intro now st q i hi hneg
    constructor
    · intro hmem
      rw [connect_eq] at hmem
      have h0 : (0 : ℚ) ≤ i.ttl - (now - q.last_disconnect_absolute) :=
        of_decide_eq_true (List.mem_filter.mp hmem).2
      exact absurd h0 (not_le.mpr hneg)
    · intro hp
      rw [connect_eq]
      apply foldDelete_kills
      refine ⟨{ i with ttl := i.ttl - (now - q.last_disconnect_absolute) }, ?_, rfl⟩
      apply List.mem_filter.mpr
      refine ⟨List.mem_filter.mpr ⟨List.mem_map.mpr ⟨i, hi, rfl⟩, ?_⟩, hp⟩
      exact decide_eq_true hneg

/-- Witness for C9 at a concrete trace: pushing ttl 5 and reading it back. -/
theorem reader_never_observes_dropped_ttl_witness :
    0 ≤ (Item.mk "a" "x" 5 0).ttl :=
  (reader_never_observes_dropped_ttl (⟨[]⟩, ⟨"q", [], 0⟩)
    [QOp.push ⟨"a", "x", 5, 0⟩]
    (by
      intro op hop i hi
      rw [List.mem_singleton] at hop
      subst hop
      injection hi with h
      subst h
      norm_num)
    (by
      intro i hi
      exact absurd hi (List.not_mem_nil i))).1
    ⟨"a", "x", 5, 0⟩ rfl

/-- **C10.** `disconnect()` while already disconnected overwrites
`last_disconnect_absolute` (last write wins): after disconnects at `t1` then
`t2` with no intervening connect, the next `connect()` at `t3` decrements
every item's ttl by exactly `t3 - t2`; the interval `t1..t2` is never
charged. -/
theorem disconnect_last_write_wins (t1 t2 t3 : ℚ)
    (st : SqliteQueuesStorage) (q : QueueState) (h : t1 < t2) :
    QueueState.disconnect t2 (QueueState.disconnect t1 q) =
      QueueState.disconnect t2 q ∧
    (QueueState.connect t3 st
        (QueueState.disconnect t2 (QueueState.disconnect t1 q))).2.queue =
      (q.queue.map (fun i => { i with ttl := i.ttl - (t3 - t2) })).filter
        (fun i => 0 ≤ i.ttl) := by
  refine ⟨rfl, ?_⟩
  rw [connect_eq]
  rfl

/-- Witness for C10 at concrete times 0 < 1, connect at 2. -/
theorem disconnect_last_write_wins_witness :
    QueueState.disconnect 1 (QueueState.disconnect 0 ⟨"q", [], 5⟩) =
      QueueState.disconnect 1 ⟨"q", [], 5⟩ :=
  (disconnect_last_write_wins 0 1 2 ⟨[]⟩ ⟨"q", [], 5⟩ (by norm_num)).1

/-- Accumulator lemma for `get_queues`: a name already accumulated or
occurring in the remaining rows ends up in the result. -/
lemma get_queues_fold_mem (rows : List Row) (acc : List String) (x : String)
    (h : x ∈ acc ∨ ∃ r ∈ rows, r.queue_name = x) :
    x ∈ rows.foldl
      (fun acc r => if r.queue_name ∈ acc then acc else acc ++ [r.queue_name])
      acc := by
  induction rows generalizing acc with
  | nil =>
    rcases h with h | ⟨r, hr, _⟩
    · exact h
    · exact absurd hr (List.not_mem_nil r)
  | cons r rest ih =>
    apply ih
    rcases h with h | ⟨r2, hr2, hx⟩
    · left
      by_cases hm : r.queue_name ∈ acc
      · simpa [hm] using h
      · simp only [hm, if_false]
        exact List.mem_append_left _ h
    · rcases List.mem_cons.mp hr2 with h2 | h2
      · left
        rw [← hx, h2]
        by_cases hm : r.queue_name ∈ acc
        · simp [hm]
        · simp [hm]
      · right
        exact ⟨r2, h2, hx⟩

/-- Every stored row's queue name appears in `get_queues`. -/
lemma mem_get_queues (s : SqliteQueuesStorage) (r : Row) (h : r ∈ s.rows) :
    r.queue_name ∈ s.get_queues :=
  get_queues_fold_mem s.rows [] r.queue_name (Or.inr ⟨r, h, rfl⟩)

/-- A successful dict lookup locates an entry of the dict. -/
lemma lookup_mem {l : List (String × QueueState)} {k : String}
    {v : QueueState} (h : l.lookup k = some v) : (k, v) ∈ l := by
  induction l with
  | nil => exact absurd h (by simp)
  | cons p rest ih =>
    obtain ⟨k1, v1⟩ := p
    by_cases hk : k = k1
    · subst hk
      simp only [List.lookup_cons, beq_self_eq_true] at h
      rw [← Option.some_inj.mp h]
      exact List.mem_cons_self _ _
    · have hb : (k == k1) = false := beq_false_of_ne hk
      simp only [List.lookup_cons, hb] at h
      exact List.mem_cons_of_mem _ (ih h)

/-- A dict lookup that succeeds on the left half succeeds unchanged on an
extended dict. -/
lemma lookup_append_left {l1 l2 : List (String × QueueState)} {k : String}
    (h : (l1.lookup k).isSome) : (l1 ++ l2).lookup k = l1.lookup k := by
  induction l1 with
  | nil => exact absurd h (by simp)
  | cons p rest ih =>
    obtain ⟨k1, v1⟩ := p
    by_cases hk : k = k1
    · have hb : (k == k1) = true := beq_iff_eq.mpr hk
      simp [List.cons_append, List.lookup_cons, hb]
    · have hb : (k == k1) = false := beq_false_of_ne hk
      simp only [List.cons_append, List.lookup_cons, hb] at h ⊢
      exact ih h

/-- Appending a fresh entry makes its key found. -/
lemma lookup_append_self {l : List (String × QueueState)} {k : String}
    {v : QueueState} (h : l.lookup k = none) :
    (l ++ [(k, v)]).lookup k = some v := by
  induction l with
  | nil => simp [List.lookup_cons]
  | cons p rest ih =>
    obtain ⟨k1, v1⟩ := p
    by_cases hk : k = k1
    · have hb : (k == k1) = true := beq_iff_eq.mpr hk
      simp [List.lookup_cons, hb] at h
    · have hb : (k == k1) = false := beq_false_of_ne hk
      simp only [List.lookup_cons, hb] at h
      simp only [List.cons_append, List.lookup_cons, hb]
      exact ih h

/-- One step of `load_from_storage`: call `get_queue`, keep the updated
manager (the error branch is unreachable while the storage handle exists). -/
def loadStep (now : ℚ) (acc : QueuesManager) (name : String) : QueuesManager :=
  match acc.get_queue now name with
  | .ok p => p.1
  | .error _ => acc

lemma load_from_storage_eq (now : ℚ) (m : QueuesManager) :
    QueuesManager.load_from_storage now m =
      (match m.storage with
       | none => []
       | some st => st.get_queues).foldl (loadStep now) m :=
  rfl

lemma init_eq (now : ℚ) (st : SqliteQueuesStorage) :
    QueuesManager.init now st =
      st.get_queues.foldl (loadStep now) ⟨some st, []⟩ :=
  rfl

lemma loadStep_storage (now : ℚ) (acc : QueuesManager) (name : String) :
    (loadStep now acc name).storage = acc.storage := by
  unfold loadStep QueuesManager.get_queue
  rcases hl : acc.queues.lookup name with _ | q
  · rcases hs : acc.storage with _ | st
    · simp [hl, hs]
    · simp [hl, hs]
  · simp [hl]

lemma loadStep_entries (now : ℚ) (st : SqliteQueuesStorage)
    (acc : QueuesManager) (name : String) (hs : acc.storage = some st)
    (hinv : ∀ p ∈ acc.queues, p.2 = QueueState.init now p.1 st) :
    ∀ p ∈ (loadStep now acc name).queues, p.2 = QueueState.init now p.1 st := by
  unfold loadStep QueuesManager.get_queue
  rcases hl : acc.queues.lookup name with _ | q
  · simp only [hl, hs]
    intro p hp
    rcases List.mem_append.mp hp with h | h
    · exact hinv p h
    · rw [List.mem_singleton.mp h]
  · simp only [hl]
    exact hinv

lemma loadStep_lookup_preserved (now : ℚ) (acc : QueuesManager)
    (name k : String) (h : (acc.queues.lookup k).isSome) :
    ((loadStep now acc name).queues.lookup k).isSome := by
  unfold loadStep QueuesManager.get_queue
  rcases hl : acc.queues.lookup name with _ | q
  · rcases hs : acc.storage with _ | st
    · simpa [hl, hs] using h
    · simp only [hl, hs]
      rw [lookup_append_left h]
      exact h
  · simpa [hl] using h

lemma loadStep_lookup_self (now : ℚ) (st : SqliteQueuesStorage)
    (acc : QueuesManager) (name : String) (hs : acc.storage = some st) :
    ((loadStep now acc name).queues.lookup name).isSome := by
  unfold loadStep QueuesManager.get_queue
  rcases hl : acc.queues.lookup name with _ | q
  · simp only [hl, hs]
    rw [lookup_append_self hl]
    rfl
  · simp [hl]

lemma load_fold_storage (now : ℚ) (names : List String) (m : QueuesManager) :
    (names.foldl (loadStep now) m).storage = m.storage := by
  induction names generalizing m with
  | nil => rfl
  | cons n rest ih =>
    rw [List.foldl_cons, ih, loadStep_storage]

lemma load_fold_lookup_preserved (now : ℚ) (names : List String)
    (m : QueuesManager) (k : String) (h : (m.queues.lookup k).isSome) :
    ((names.foldl (loadStep now) m).queues.lookup k).isSome := by
  induction names generalizing m with
  | nil => exact h
  | cons n rest ih =>
    exact ih (loadStep now m n) (loadStep_lookup_preserved now m n k h)

lemma load_fold_entries (now : ℚ) (st : SqliteQueuesStorage)
    (names : List String) (m : QueuesManager) (hs : m.storage = some st)
    (hinv : ∀ p ∈ m.queues, p.2 = QueueState.init now p.1 st) :
    ∀ p ∈ (names.foldl (loadStep now) m).queues,
      p.2 = QueueState.init now p.1 st := by
  induction names generalizing m with
  | nil => exact hinv
  | cons n rest ih =>
    exact ih (loadStep now m n) (by rw [loadStep_storage]; exact hs)
      (loadStep_entries now st m n hs hinv)

lemma load_fold_lookup (now : ℚ) (st : SqliteQueuesStorage)
    (names : List String) (m : QueuesManager) (hs : m.storage = some st)
    (name : String) (hname : name ∈ names) :
    ((names.foldl (loadStep now) m).queues.lookup name).isSome := by
  induction names generalizing m with
  | nil => exact absurd hname (List.not_mem_nil name)
  | cons n rest ih =>
    rcases List.mem_cons.mp hname with h | h
    · subst h
      exact load_fold_lookup_preserved now rest (loadStep now m name) name
        (loadStep_lookup_self now st m name hs)
    · exact ih (loadStep now m n) (by rw [loadStep_storage]; exact hs) h

/-- `get_queue` on a freshly constructed manager returns the eagerly loaded
queue for any name present in storage: its backlog is `get_items name` and
its disconnect timestamp is the construction instant. -/
lemma init_get_queue_of_mem (now now2 : ℚ) (st : SqliteQueuesStorage)
    (name : String) (hmem : name ∈ st.get_queues) :
    (QueuesManager.init now st).get_queue now2 name =
      .ok (QueuesManager.init now st, QueueState.init now name st) := by
  have hsome : ((QueuesManager.init now st).queues.lookup name).isSome := by
    rw [init_eq]
    exact load_fold_lookup now st st.get_queues ⟨some st, []⟩ rfl name hmem
  obtain ⟨q, hq⟩ := Option.isSome_iff_exists.mp hsome
  have hentry : (name, q) ∈ (QueuesManager.init now st).queues := lookup_mem hq
  have hqe : q = QueueState.init now name st := by
    have := load_fold_entries now st st.get_queues ⟨some st, []⟩ rfl
      (by intro p hp; exact absurd hp (List.not_mem_nil p)) (name, q)
    rw [← init_eq] at this
    exact this hentry
  unfold QueuesManager.get_queue
  rw [hq, hqe]

/-- With the PERSISTENT flag set, `push` inserts the row into storage. -/
lemma push_storage_eq_persistent (st : SqliteQueuesStorage) (q : QueueState)
    (item : Item) (hp : item.isPersistent = true) :
    (QueueState.push st q item).1 = st.push q.name item := by
  unfold QueueState.push
  simp [hp]

/-- Reading back the queue after a storage insert appends exactly the pushed
item (same uuid, data, ttl, flags). -/
lemma get_items_push_same (s : SqliteQueuesStorage) (name : String)
    (item : Item) :
    (s.push name item).get_items name = s.get_items name ++ [item] := by
  unfold SqliteQueuesStorage.push SqliteQueuesStorage.get_items
  simp [List.filter_append]

/-- **C5 (counterexample).** Push the persistent item (uuid `a`, data `x`,
ttl 5) at time 0; the queue records its last disconnect at time 10; the
process then dies and a fresh manager is constructed over the same storage
contents at time 100.  `get_queue` returns the item with ttl still 5 — not
5 − (100 − 10): the module charges no TTL for manager downtime, so the
elapsed real time since the pre-restart disconnect is not subtracted. -/
theorem restart_ttl_not_decremented :
    (QueuesManager.init 100
        (QueueState.push ⟨[]⟩ ⟨"jobs", [], 0⟩ ⟨"a", "x", 5, 1⟩).1).get_queue
        100 "jobs" =
      .ok (QueuesManager.init 100
            (QueueState.push ⟨[]⟩ ⟨"jobs", [], 0⟩ ⟨"a", "x", 5, 1⟩).1,
           ⟨"jobs", [⟨"a", "x", 5, 1⟩], 100⟩) ∧
    (5 : ℚ) ≠ 5 - (100 - 10) := by
  constructor
  · rfl
  · norm_num

/-- **C5 (amended).** Persistence round-trip: after pushing a PERSISTENT
item and reconstructing a fresh manager over the same storage contents at
time `now`, `get_queue` of the same queue name returns a queue whose backlog
ends with an item of the same uuid, data and ttl *exactly as stored* (the
downtime since the pre-restart disconnect is never charged); the new queue's
disconnect timestamp is `now`, and only the next `connect()` at time `t`
decrements the ttl — by `t - now`. -/
theorem persistent_item_round_trip (st0 : SqliteQueuesStorage)
    (q0 : QueueState) (item : Item) (now now2 t : ℚ)
    (hp : item.isPersistent = true) :
    (QueuesManager.init now (QueueState.push st0 q0 item).1).get_queue now2
        q0.name =
      .ok (QueuesManager.init now (QueueState.push st0 q0 item).1,
           QueueState.init now q0.name (QueueState.push st0 q0 item).1) ∧
    (QueueState.init now q0.name (QueueState.push st0 q0 item).1).queue =
      st0.get_items q0.name ++ [item] ∧
    (QueueState.init now q0.name
        (QueueState.push st0 q0 item).1).last_disconnect_absolute = now ∧
    (QueueState.connect t (QueueState.push st0 q0 item).1
        (QueueState.init now q0.name (QueueState.push st0 q0 item).1)).2.queue =
      ((st0.get_items q0.name ++ [item]).map
        (fun i => { i with ttl := i.ttl - (t - now) })).filter
        (fun i => 0 ≤ i.ttl) := by
  have hst : (QueueState.push st0 q0 item).1 = st0.push q0.name item :=
    push_storage_eq_persistent st0 q0 item hp
  have hrow : (⟨q0.name, item.uuid, item.data, item.ttl, item.flags⟩ : Row) ∈
      (QueueState.push st0 q0 item).1.rows := by
    rw [hst]
    exact List.mem_append_right _ (List.mem_singleton_self _)
  have hmem : q0.name ∈ (QueueState.push st0 q0 item).1.get_queues :=
    mem_get_queues (QueueState.push st0 q0 item).1 _ hrow
  have hitems : (QueueState.push st0 q0 item).1.get_items q0.name =
      st0.get_items q0.name ++ [item] := by
    rw [hst]
    exact get_items_push_same st0 q0.name item
  refine ⟨init_get_queue_of_mem now now2 _ q0.name hmem, hitems, rfl, ?_⟩
  rw [connect_eq]
  dsimp only [QueueState.init]
  rw [hitems]

/-- Witness for the amended C5 theorem at a concrete input. -/
theorem persistent_item_round_trip_witness :
    (QueuesManager.init 100
        (QueueState.push ⟨[]⟩ ⟨"jobs", [], 0⟩ ⟨"a", "x", 5, 1⟩).1).get_queue
        100 "jobs" =
      .ok (QueuesManager.init 100
            (QueueState.push ⟨[]⟩ ⟨"jobs", [], 0⟩ ⟨"a", "x", 5, 1⟩).1,
           QueueState.init 100 "jobs"
             (QueueState.push ⟨[]⟩ ⟨"jobs", [], 0⟩ ⟨"a", "x", 5, 1⟩).1) :=
  (persistent_item_round_trip ⟨[]⟩ ⟨"jobs", [], 0⟩ ⟨"a", "x", 5, 1⟩
    100 100 103 rfl).1
